import Mathlib

/-!
# Verification of the SVD-visualizer numeric core

A shallow embedding of the pure numeric core of `src/app/page.tsx`:
cell parsing (`parseCellValue`), matrix–vector multiplication
(`multiplyMatrixVector`), `transpose`, `buildSigmaMatrix`, number
formatting (`formatNumber`), the SVD orchestrator (`svdResult`) and the
derived vector chain (`vtVector`, `sigmaVector`, `uVector`).

JavaScript numbers are idealised as exact rationals (`ℚ`); matrices are
`List (List ℚ)` (row-major) and vectors `List ℚ`, so that JavaScript's
`arr[i] ?? 0` out-of-range default becomes `List.getD i 0`.
-/

/-- JS `vector[index] ?? 0` indexing: element at `i`, defaulting to `0`. -/
def idx0 (v : List ℚ) (i : Nat) : ℚ := v.getD i 0

/-- The accumulator loop of
`row.reduce((sum, value, index) => sum + value * (vector[index] ?? 0), 0)`:
`sum` is the running accumulator and `i` the current index. -/
def rowDotAux (vec : List ℚ) : ℚ → Nat → List ℚ → ℚ
  | sum, _, [] => sum
  | sum, i, a :: as => rowDotAux vec (sum + a * idx0 vec i) (i + 1) as

/-- `multiplyMatrixVector` from `page.tsx`:
`matrix.map((row) => row.reduce((sum, value, index) => sum + value * (vector[index] ?? 0), 0))`. -/
def multiplyMatrixVector (matrix : List (List ℚ)) (vector : List ℚ) : List ℚ :=
  matrix.map (fun row => rowDotAux vector 0 0 row)

/-- `transpose` from `page.tsx`:
`matrix[0] ? matrix[0].map((_, columnIndex) => matrix.map((row) => row[columnIndex] ?? 0)) : []`.
When the matrix is empty, `matrix[0]` is `undefined` (falsy) and the result
is `[]`; otherwise the first row drives the column count (an empty first
row is truthy in JS but maps to `[]` all the same). -/
def transpose (matrix : List (List ℚ)) : List (List ℚ) :=
  match matrix with
  | [] => []
  | r0 :: _ => (List.range r0.length).map (fun columnIndex =>
      matrix.map (fun row => idx0 row columnIndex))

/-- `buildSigmaMatrix` from `page.tsx`:
`Array.from({length: rows}, (_, row) => Array.from({length: columns}, (_, column) => row === column ? diagonal[row] ?? 0 : 0))`. -/
def buildSigmaMatrix (diagonal : List ℚ) (rows columns : Nat) : List (List ℚ) :=
  (List.range rows).map (fun row =>
    (List.range columns).map (fun column => if row = column then idx0 diagonal row else 0))

/-- Dot product with zero-fill, as the spec words it: the dot product of a
row with a vector where any vector index out of range contributes `0`.
Used to state what each `multiplyMatrixVector` output element is. -/
def specDot : List ℚ → List ℚ → ℚ
  | [], _ => 0
  | a :: as, v => a * v.headD 0 + specDot as v.tail

/-- Sum of squares of a vector's entries: the square of the Euclidean
norm, used to compare `‖U·Σ·Vᵀ·x‖` with `‖A·x‖` (the norms agree iff the
sums of squares do). -/
def normSq (v : List ℚ) : ℚ := (v.map (fun a => a * a)).sum

-- ## Basic lemmas about the multiplier

theorem idx0_eq_headD_drop (v : List ℚ) (i : Nat) : idx0 v i = (v.drop i).headD 0 := by
  induction v generalizing i with
  | nil => simp [idx0]
  | cons a as ih =>
    cases i with
    | zero => simp [idx0]
    | succ j =>
      have h1 : idx0 (a :: as) (j + 1) = idx0 as j := rfl
      rw [h1, ih j, List.drop_succ_cons]

theorem rowDotAux_eq (vec : List ℚ) (sum : ℚ) (i : Nat) (row : List ℚ) :
    rowDotAux vec sum i row = sum + specDot row (vec.drop i) := by
  induction row generalizing sum i with
  | nil => simp [rowDotAux, specDot]
  | cons a as ih =>
    rw [rowDotAux, ih]
    simp [specDot, idx0_eq_headD_drop, List.tail_drop]
    ring

theorem rowDotAux_eq_specDot (vec row : List ℚ) :
    rowDotAux vec 0 0 row = specDot row vec := by
  simp [rowDotAux_eq vec 0 0 row]

theorem multiplyMatrixVector_length (m : List (List ℚ)) (v : List ℚ) :
    (multiplyMatrixVector m v).length = m.length := by
  simp [multiplyMatrixVector]

theorem multiplyMatrixVector_getElem (m : List (List ℚ)) (v : List ℚ)
    (i : Nat) (hi : i < m.length) :
    (multiplyMatrixVector m v).getD i 0 = specDot (m.getD i []) v := by
  simp [multiplyMatrixVector, List.getD_eq_getElem?_getD, List.getElem?_map,
    List.getElem?_eq_getElem hi, rowDotAux_eq_specDot]

-- ## Lemmas about transpose

theorem range_map_idx0 (l : List ℚ) : (List.range l.length).map (fun j => idx0 l j) = l := by
  apply List.ext_getElem
  · simp
  · intro i h1 h2
    simp [idx0, List.getD_eq_getElem?_getD, List.getElem?_eq_getElem h2]

theorem transpose_length (r0 : List ℚ) (rest : List (List ℚ)) :
    (transpose (r0 :: rest)).length = r0.length := by
  simp [transpose]

theorem transpose_getD (m : List (List ℚ)) (r0 : List ℚ) (hm : m.head? = some r0)
    (j : Nat) (hj : j < r0.length) :
    (transpose m).getD j [] = m.map (fun row => idx0 row j) := by
  cases m with
  | nil => simp at hm
  | cons a rest =>
    simp at hm
    subst hm
    simp [transpose, List.getD_eq_getElem?_getD, List.getElem?_map, List.getElem?_range hj]

theorem map_getD_of_lt (m : List (List ℚ)) (i j : Nat) (hi : i < m.length) :
    (m.map (fun row => idx0 row j)).getD i 0 = idx0 (m.getD i []) j := by
  simp [List.getD_eq_getElem?_getD, List.getElem?_map, List.getElem?_eq_getElem hi,
    List.getD_eq_getElem?_getD]

theorem transpose_transpose (m : List (List ℚ)) (c : Nat)
    (hc : ∀ row ∈ m, row.length = c) (hne : m = [] ∨ 0 < c) :
    transpose (transpose m) = m := by
  cases m with
  | nil => rfl
  | cons r0 rest =>
    have hr0 : r0.length = c := hc r0 (by simp)
    rcases hne with h | hpos
    · simp at h
    have hTlen : (transpose (r0 :: rest)).length = c := by rw [transpose_length, hr0]
    -- transpose m is nonempty with first element of length m.length
    obtain ⟨t0, ts, hT⟩ : ∃ t0 ts, transpose (r0 :: rest) = t0 :: ts := by
      cases hT : transpose (r0 :: rest) with
      | nil => rw [hT] at hTlen; simp at hTlen; omega
      | cons a b => exact ⟨a, b, rfl⟩
    have ht0 : t0.length = (r0 :: rest).length := by
      have : (transpose (r0 :: rest)).getD 0 [] = (r0 :: rest).map (fun row => idx0 row 0) := by
        apply transpose_getD _ r0 (by simp)
        omega
      rw [hT] at this
      simp at this
      rw [this]
      simp
    rw [hT, transpose]
    rw [← hT]
    apply List.ext_getElem
    · simp [ht0, ← hT, hTlen]
    · intro i h1 h2
      have hi : i < (r0 :: rest).length := h2
      have hrowmem : (r0 :: rest).getD i [] ∈ (r0 :: rest) := by
        rw [List.getD_eq_getElem?_getD, List.getElem?_eq_getElem hi]
        exact List.getElem_mem hi
      have hrow : ((r0 :: rest).getD i []).length = c := hc _ hrowmem
      simp only [List.getElem_map, List.getElem_range]
      rw [transpose, List.map_map]
      have step1 : (List.range r0.length).map ((fun col => idx0 col i) ∘ fun columnIndex => (r0 :: rest).map (fun row => idx0 row columnIndex))
          = (List.range r0.length).map (fun j => idx0 ((r0 :: rest).getD i []) j) := by
        apply List.map_congr_left
        intro j hj
        simpa [Function.comp, idx0] using map_getD_of_lt (r0 :: rest) i j hi
      rw [step1]
      have step2 := range_map_idx0 ((r0 :: rest).getD i [])
      rw [hrow, ← hr0] at step2
      rw [step2]
      simp [List.getD_eq_getElem?_getD, List.getElem?_eq_getElem hi]

-- ## Lemmas about buildSigmaMatrix

theorem buildSigmaMatrix_length (d : List ℚ) (rows cols : Nat) :
    (buildSigmaMatrix d rows cols).length = rows := by
  simp [buildSigmaMatrix]

theorem buildSigmaMatrix_row_length (d : List ℚ) (rows cols r : Nat) (hr : r < rows) :
    ((buildSigmaMatrix d rows cols).getD r []).length = cols := by
  simp [buildSigmaMatrix, List.getD_eq_getElem?_getD, List.getElem?_map, List.getElem?_range hr]

theorem buildSigmaMatrix_entry (d : List ℚ) (rows cols r c : Nat) (hr : r < rows) (hc : c < cols) :
    ((buildSigmaMatrix d rows cols).getD r []).getD c 0 =
      if r = c then d.getD r 0 else 0 := by
  simp [buildSigmaMatrix, List.getD_eq_getElem?_getD, List.getElem?_map, List.getElem?_range hr,
    List.getElem?_range hc, idx0]

-- ## Claim C5: multiplyMatrixVector

/-- **C5.** `multiplyMatrixVector` on an R×C matrix and any vector yields a
vector of length R whose `i`-th element is the dot product of matrix row `i`
with the vector, out-of-range vector indices contributing `0`; a 2×3 matrix
times a length-2 vector yields a defined length-2 result (missing component
treated as `0`), and the 3×3 identity matrix times `[1,0,0]` gives `[1,0,0]`
exactly. -/
theorem multiplyMatrixVector_spec :
    (∀ (m : List (List ℚ)) (v : List ℚ), (multiplyMatrixVector m v).length = m.length)
    ∧ (∀ (m : List (List ℚ)) (v : List ℚ) (i : Nat), i < m.length →
        (multiplyMatrixVector m v).getD i 0 = specDot (m.getD i []) v)
    ∧ multiplyMatrixVector [[1, 2, 3], [4, 5, 6]] [10, 20] = [50, 140]
    ∧ multiplyMatrixVector [[1, 0, 0], [0, 1, 0], [0, 0, 1]] [1, 0, 0] = [1, 0, 0] := by
  refine ⟨multiplyMatrixVector_length,
    fun m v i hi => multiplyMatrixVector_getElem m v i hi, ?_, ?_⟩ <;>
    norm_num [multiplyMatrixVector, rowDotAux, idx0]

/-- Witness for C5 at a concrete shape-mismatched input. -/
theorem multiplyMatrixVector_spec_witness :
    (multiplyMatrixVector [[(1 : ℚ), 2, 3], [4, 5, 6]] [10, 20]).getD 1 0
      = specDot ([[(1 : ℚ), 2, 3], [4, 5, 6]].getD 1 []) [10, 20] :=
  multiplyMatrixVector_spec.2.1 [[1, 2, 3], [4, 5, 6]] [10, 20] 1 (by norm_num)

-- ## Claim C6: transpose involution

/-- **C6 counterexample.** The involution fails on the matrix `[[], []]`
(two empty rows): its transpose is `[]`, whose transpose is `[]`, not
`[[], []]`. -/
theorem transpose_involution_counterexample :
    transpose (transpose [[], []]) ≠ ([[], []] : List (List ℚ)) := by decide

/-- **C6 (amended).** `transpose` is an involution on every rectangular
matrix that is empty or has rows of positive common length `c`; it maps
such a nonempty R×C matrix to the C×R matrix with element `(i,j)` moved to
`(j,i)`; and it returns the empty result for a zero-row matrix (totality
and purity are by construction). As originally stated — over arbitrary
lists of rows — the involution fails, e.g. on `[[], []]`. -/
theorem transpose_involution_amended :
    (∀ (m : List (List ℚ)) (c : Nat), (∀ row ∈ m, row.length = c) →
        m = [] ∨ 0 < c → transpose (transpose m) = m)
    ∧ (∀ (m : List (List ℚ)) (c : Nat), (∀ row ∈ m, row.length = c) → m ≠ [] → 0 < c →
        (transpose m).length = c
        ∧ (∀ j, j < c → ((transpose m).getD j []).length = m.length
            ∧ ∀ i, i < m.length →
                ((transpose m).getD j []).getD i 0 = (m.getD i []).getD j 0))
    ∧ transpose ([] : List (List ℚ)) = [] := by
  refine ⟨transpose_transpose, ?_, rfl⟩
  intro m c hc hne hpos
  obtain ⟨r0, rest, rfl⟩ : ∃ r0 rest, m = r0 :: rest := by
    cases m with
    | nil => exact absurd rfl hne
    | cons a b => exact ⟨a, b, rfl⟩
  have hr0 : r0.length = c := hc r0 (by simp)
  refine ⟨by rw [transpose_length, hr0], fun j hj => ?_⟩
  rw [transpose_getD (r0 :: rest) r0 rfl j (by rw [hr0]; exact hj)]
  refine ⟨by simp, fun i hi => ?_⟩
  rw [map_getD_of_lt (r0 :: rest) i j hi]
  rfl

/-- Witness for the amended C6 at a concrete 2×2 matrix: the involution
and the `(i,j)`-to-`(j,i)` element mapping. -/
theorem transpose_involution_amended_witness :
    transpose (transpose [[(1 : ℚ), 2], [3, 4]]) = [[(1 : ℚ), 2], [3, 4]]
    ∧ ((transpose [[(1 : ℚ), 2], [3, 4]]).getD 1 []).getD 0 0
      = (([[(1 : ℚ), 2], [3, 4]]).getD 0 []).getD 1 0 :=
  ⟨transpose_involution_amended.1 [[1, 2], [3, 4]] 2 (by decide) (Or.inr (by decide)),
   ((transpose_involution_amended.2.1 [[1, 2], [3, 4]] 2 (by decide) (by decide)
        (by decide)).2 1 (by decide)).2 0 (by decide)⟩

-- ## Claim C7: buildSigmaMatrix

/-- **C7.** `buildSigmaMatrix` produces a `rows × columns` matrix that is
zero everywhere except position `(i,i)`, which holds `diagonal[i]` with
missing diagonal entries defaulting to `0`; and
`buildSigmaMatrix [5,3,1] 3 3 = [[5,0,0],[0,3,0],[0,0,1]]`. -/
theorem buildSigmaMatrix_spec :
    (∀ (d : List ℚ) (rows cols : Nat),
        (buildSigmaMatrix d rows cols).length = rows
        ∧ (∀ r, r < rows → ((buildSigmaMatrix d rows cols).getD r []).length = cols)
        ∧ (∀ r c, r < rows → c < cols →
            ((buildSigmaMatrix d rows cols).getD r []).getD c 0
              = if r = c then d.getD r 0 else 0))
    ∧ buildSigmaMatrix [5, 3, 1] 3 3 = [[5, 0, 0], [0, 3, 0], [0, 0, 1]] :=
  ⟨fun d rows cols =>
    ⟨buildSigmaMatrix_length d rows cols,
     fun r hr => buildSigmaMatrix_row_length d rows cols r hr,
     fun r c hr hc => buildSigmaMatrix_entry d rows cols r c hr hc⟩,
   by decide⟩

/-- Witness for C7 at a concrete rectangular shape with a short diagonal. -/
theorem buildSigmaMatrix_spec_witness :
    ((buildSigmaMatrix [(7 : ℚ)] 2 3).getD 1 []).getD 1 0
      = if 1 = 1 then ([(7 : ℚ)]).getD 1 0 else 0 :=
  (buildSigmaMatrix_spec.1 [7] 2 3).2.2 1 1 (by decide) (by decide)

-- ## Claim C9: transpose on ragged input

/-- **C9.** `transpose` takes its column count from the first row: when the
first row is `r0` (nonempty or not), the result has `r0.length` rows, each
of length equal to the row count of the input, and entry `(j,i)` is entry
`(i,j)` of the input with ragged rows zero-filled (out-of-range reads give
`0`); a first row longer than another row zero-fills, extra elements of
longer rows are dropped (e.g. `transpose [[1],[2,3]] = [[1,2]]`), and a
matrix whose first row is empty transposes to `[]` (e.g. `[[],[]]`). -/
theorem transpose_ragged_spec :
    (∀ (m : List (List ℚ)) (r0 : List ℚ), m.head? = some r0 →
        (transpose m).length = r0.length
        ∧ (∀ j, j < r0.length →
            ((transpose m).getD j []).length = m.length
            ∧ ∀ i, i < m.length →
                ((transpose m).getD j []).getD i 0 = (m.getD i []).getD j 0))
    ∧ (∀ rest : List (List ℚ), transpose ([] :: rest) = [])
    ∧ transpose [[], []] = ([] : List (List ℚ))
    ∧ transpose [[1], [2, 3]] = [[1, 2]] := by
  refine ⟨?_, ?_, by decide, by decide⟩
  · intro m r0 hm
    cases m with
    | nil => simp at hm
    | cons a rest =>
      simp only [List.head?_cons, Option.some.injEq] at hm
      subst hm
      refine ⟨transpose_length _ _, fun j hj => ?_⟩
      rw [transpose_getD (a :: rest) a rfl j hj]
      refine ⟨by simp, fun i hi => ?_⟩
      rw [map_getD_of_lt (a :: rest) i j hi]
      rfl
  · intro rest
    simp [transpose]

/-- Witness for C9 at the concrete ragged matrix `[[1],[2,3]]`. -/
theorem transpose_ragged_spec_witness :
    ((transpose [[1], [2, 3]]).getD 0 []).getD 1 0
      = (([[(1 : ℚ)], [2, 3]]).getD 1 []).getD 0 0 :=
  ((transpose_ragged_spec.1 [[1], [2, 3]] [1] rfl).2 0 (by decide)).2 1 (by decide)

-- ## The SVD orchestrator and the derived vector chain

/-- The raw result of the external `svd-js` `SVD(matrix)` call destructured
in `page.tsx` as `const { u, v, q } = SVD(numericMatrix)`: the left singular
vectors `u`, the right singular vectors `v` (not transposed) and the vector
`q` of singular values. -/
structure SVDRaw where
  u : List (List ℚ)
  v : List (List ℚ)
  q : List ℚ

/-- The triple `{ u, sigma, vt }` returned by the orchestrator on success. -/
structure SVDTriple where
  u : List (List ℚ)
  sigma : List (List ℚ)
  vt : List (List ℚ)

/-- `svdResult` from `page.tsx`. The external `SVD` routine from `svd-js`
is not part of this repository, so it is a parameter `svd`; a thrown
exception (caught by the orchestrator's `try`/`catch`) is modelled as
`none`. On success the orchestrator builds
`sigma = buildSigmaMatrix(q, numericMatrix.length, numericMatrix[0]?.length ?? 0)`
and `vt = transpose(v)`; on a caught failure it returns `null`, i.e. `none`. -/
def svdResult (svd : List (List ℚ) → Option SVDRaw)
    (numericMatrix : List (List ℚ)) : Option SVDTriple :=
  match svd numericMatrix with
  | none => none
  | some r =>
      some ⟨r.u, buildSigmaMatrix r.q numericMatrix.length (numericMatrix.headD []).length,
        transpose r.v⟩

/-- `productVector` from `page.tsx`: the direct product
`multiplyMatrixVector(numericMatrix, numericVector)`. -/
def productVector (numericMatrix : List (List ℚ)) (numericVector : List ℚ) : List ℚ :=
  multiplyMatrixVector numericMatrix numericVector

/-- `vtVector` from `page.tsx`: `[0,0,0]` when no SVD result is available,
otherwise `multiplyMatrixVector(svdResult.vt, numericVector)`. -/
def vtVector (res : Option SVDTriple) (numericVector : List ℚ) : List ℚ :=
  match res with
  | none => [0, 0, 0]
  | some r => multiplyMatrixVector r.vt numericVector

/-- `sigmaVector` from `page.tsx`: `[0,0,0]` when no SVD result is
available, otherwise `multiplyMatrixVector(svdResult.sigma, vtVector)`. -/
def sigmaVector (res : Option SVDTriple) (numericVector : List ℚ) : List ℚ :=
  match res with
  | none => [0, 0, 0]
  | some r => multiplyMatrixVector r.sigma (vtVector res numericVector)

/-- `uVector` from `page.tsx`: `[0,0,0]` when no SVD result is available,
otherwise `multiplyMatrixVector(svdResult.u, sigmaVector)`. -/
def uVector (res : Option SVDTriple) (numericVector : List ℚ) : List ℚ :=
  match res with
  | none => [0, 0, 0]
  | some r => multiplyMatrixVector r.u (sigmaVector res numericVector)

/-- Modelled from the spec: the matrix–matrix product, needed to state the
SVD reconstruction invariant `U · Σ · Vᵀ ≈ A` (exact over `ℚ`). The source
never multiplies two matrices, so this is a specification-level definition:
entry `(i,j)` is the dot product of row `i` of `a` with column `j` of `b`. -/
def matMulSpec (a b : List (List ℚ)) : List (List ℚ) :=
  a.map (fun row => (transpose b).map (fun col => specDot row col))

-- ## Claim C2: the orchestrator's contract

/-- **C2.** For every matrix, if the decomposition routine fails (modelled:
returns `none` where the JS routine throws), `svdResult` is `none` — the
absence marker — and no exception propagates (the embedding is total); on
success it returns `{u, sigma, vt}` with `sigma` built by `buildSigmaMatrix`
from the singular values and the matrix's dimensions, and `vt` the
`transpose` of the returned `v`. -/
theorem svdResult_spec (svd : List (List ℚ) → Option SVDRaw) (m : List (List ℚ)) :
    (svd m = none → svdResult svd m = none)
    ∧ (∀ r : SVDRaw, svd m = some r →
        svdResult svd m =
          some ⟨r.u, buildSigmaMatrix r.q m.length (m.headD []).length, transpose r.v⟩) := by
  constructor
  · intro h
    simp [svdResult, h]
  · intro r h
    simp [svdResult, h]

/-- Witness for C2: a routine that always fails, and one that succeeds on
the zero matrix with explicitly given factors. -/
theorem svdResult_spec_witness :
    svdResult (fun _ => none) [[0, 0, 0], [0, 0, 0], [0, 0, 0]] = none ∧
    svdResult (fun _ => some ⟨[[1]], [[1]], [2]⟩) [[3]]
      = some ⟨[[1]], buildSigmaMatrix [2] 1 1, transpose [[1]]⟩ :=
  ⟨(svdResult_spec (fun _ => none) [[0, 0, 0], [0, 0, 0], [0, 0, 0]]).1 rfl,
   (svdResult_spec (fun _ => some ⟨[[1]], [[1]], [2]⟩) [[3]]).2 ⟨[[1]], [[1]], [2]⟩ rfl⟩

-- ## Claim C3: absent SVD gives the zero chain

/-- **C3.** For every input vector, when the orchestrator reports no SVD
result, each derived-chain stage (`vtVector`, `sigmaVector`, `uVector`) is
the zero vector `[0, 0, 0]` of length 3; the embedding is total, so no
exception can be raised. -/
theorem chain_absent_spec (svd : List (List ℚ) → Option SVDRaw)
    (m : List (List ℚ)) (v : List ℚ) (h : svdResult svd m = none) :
    vtVector (svdResult svd m) v = [0, 0, 0]
    ∧ sigmaVector (svdResult svd m) v = [0, 0, 0]
    ∧ uVector (svdResult svd m) v = [0, 0, 0] := by
  rw [h]
  exact ⟨rfl, rfl, rfl⟩

/-- Witness for C3: an always-failing decomposition on the zero matrix. -/
theorem chain_absent_spec_witness :
    vtVector (svdResult (fun _ => none) [[0, 0, 0], [0, 0, 0], [0, 0, 0]]) [1, 2, 3] = [0, 0, 0]
    ∧ sigmaVector (svdResult (fun _ => none) [[0, 0, 0], [0, 0, 0], [0, 0, 0]]) [1, 2, 3]
      = [0, 0, 0]
    ∧ uVector (svdResult (fun _ => none) [[0, 0, 0], [0, 0, 0], [0, 0, 0]]) [1, 2, 3]
      = [0, 0, 0] :=
  chain_absent_spec (fun _ => none) [[0, 0, 0], [0, 0, 0], [0, 0, 0]] [1, 2, 3] rfl

-- ## Claim C1: the derived chain matches the direct product

/-- **C1.** For every 3×3 matrix `A` and length-3 vector `x`, if the SVD
factors `U`, `Σ`, `Vᵀ` reconstruct `A` — the idealisation over exact
rationals of "`U·Σ·Vᵀ ≈ A` within floating-point tolerance", which holds
whenever the decomposition succeeds on a non-degenerate matrix — then the
final derived-chain vector `uVector = U·(Σ·(Vᵀ·x))`, computed by applying
`multiplyMatrixVector` successively to the factors, equals the direct
product `productVector = multiplyMatrixVector A x` componentwise, and the
squared norm `‖U·Σ·Vᵀ·x‖²` equals `‖A·x‖²`. -/
theorem svd_chain_matches_product
    (u00 u01 u02 u10 u11 u12 u20 u21 u22
     s00 s01 s02 s10 s11 s12 s20 s21 s22
     t00 t01 t02 t10 t11 t12 t20 t21 t22
     a00 a01 a02 a10 a11 a12 a20 a21 a22
     x0 x1 x2 : ℚ)
    (hrec : matMulSpec [[u00, u01, u02], [u10, u11, u12], [u20, u21, u22]]
        (matMulSpec [[s00, s01, s02], [s10, s11, s12], [s20, s21, s22]]
          [[t00, t01, t02], [t10, t11, t12], [t20, t21, t22]])
      = [[a00, a01, a02], [a10, a11, a12], [a20, a21, a22]]) :
    uVector
        (some ⟨[[u00, u01, u02], [u10, u11, u12], [u20, u21, u22]],
               [[s00, s01, s02], [s10, s11, s12], [s20, s21, s22]],
               [[t00, t01, t02], [t10, t11, t12], [t20, t21, t22]]⟩)
        [x0, x1, x2]
      = productVector [[a00, a01, a02], [a10, a11, a12], [a20, a21, a22]] [x0, x1, x2]
    ∧ normSq (uVector
        (some ⟨[[u00, u01, u02], [u10, u11, u12], [u20, u21, u22]],
               [[s00, s01, s02], [s10, s11, s12], [s20, s21, s22]],
               [[t00, t01, t02], [t10, t11, t12], [t20, t21, t22]]⟩)
        [x0, x1, x2])
      = normSq (productVector [[a00, a01, a02], [a10, a11, a12], [a20, a21, a22]]
          [x0, x1, x2]) := by
  have hmain : uVector
        (some ⟨[[u00, u01, u02], [u10, u11, u12], [u20, u21, u22]],
               [[s00, s01, s02], [s10, s11, s12], [s20, s21, s22]],
               [[t00, t01, t02], [t10, t11, t12], [t20, t21, t22]]⟩)
        [x0, x1, x2]
      = productVector [[a00, a01, a02], [a10, a11, a12], [a20, a21, a22]] [x0, x1, x2] := by
    simp [matMulSpec, transpose, specDot, List.range_succ, idx0] at hrec
    obtain ⟨⟨h00, h01, h02⟩, ⟨h10, h11, h12⟩, h20, h21, h22⟩ := hrec
    subst h00 h01 h02 h10 h11 h12 h20 h21 h22
    simp [uVector, sigmaVector, vtVector, productVector, multiplyMatrixVector, rowDotAux, idx0]
    refine ⟨?_, ?_, ?_⟩ <;> ring
  exact ⟨hmain, by rw [hmain]⟩

/-- Witness for C1: the identity SVD of the identity matrix applied to
`[1, 2, 3]`. -/
theorem svd_chain_matches_product_witness :
    uVector
        (some ⟨[[1, 0, 0], [0, 1, 0], [0, 0, 1]],
               [[1, 0, 0], [0, 1, 0], [0, 0, 1]],
               [[1, 0, 0], [0, 1, 0], [0, 0, 1]]⟩)
        [1, 2, 3]
      = productVector [[1, 0, 0], [0, 1, 0], [0, 0, 1]] [1, 2, 3]
    ∧ normSq (uVector
        (some ⟨[[1, 0, 0], [0, 1, 0], [0, 0, 1]],
               [[1, 0, 0], [0, 1, 0], [0, 0, 1]],
               [[1, 0, 0], [0, 1, 0], [0, 0, 1]]⟩)
        [1, 2, 3])
      = normSq (productVector [[1, 0, 0], [0, 1, 0], [0, 0, 1]] [1, 2, 3]) :=
  svd_chain_matches_product 1 0 0 0 1 0 0 0 1 1 0 0 0 1 0 0 0 1 1 0 0 0 1 0 0 0 1
    1 0 0 0 1 0 0 0 1 1 2 3
    (by norm_num [matMulSpec, transpose, specDot, List.range_succ, idx0])

-- ## The cell parser

/-- The value classes of a JavaScript number, as far as `parseFloat` and
`Number.isFinite` can tell them apart: NaN, the two infinities, and
finite values (idealised as exact rationals). -/
inductive JsNum where
  | nan : JsNum
  | posInf : JsNum
  | negInf : JsNum
  | finite : ℚ → JsNum
deriving DecidableEq

/-- `Number.isFinite`. -/
def isFiniteNum : JsNum → Bool
  | .finite _ => true
  | _ => false

/-- The whitespace characters `parseFloat` skips before the numeric
literal (ECMA-262 StrWhiteSpaceChar): the ASCII whitespace and line
terminators plus no-break space and the BOM. (Other Unicode space
separators are also skipped by JS; they are omitted here and none of the
verified statements depends on them.) -/
def isWsChar (c : Char) : Bool :=
  c == ' ' || c == '\t' || c == '\n' || c == '\r' || c == '\x0b' || c == '\x0c' ||
    c == ' ' || c == '﻿'

/-- The numeric value of a list of decimal digit characters, most
significant first. -/
def digitsVal (ds : List Char) : ℕ := ds.foldl (fun n c => 10 * n + (c.toNat - 48)) 0

/-- Value of the digit run after the exponent sign; an empty run
contributes exponent `0` (the `e` is then not part of the parsed prefix,
which leaves the value unchanged). -/
def expNat (cs : List Char) : ℤ := digitsVal (cs.takeWhile Char.isDigit)

/-- Signed exponent digits after the `e`/`E` marker. -/
def expTail (cs : List Char) : ℤ :=
  if cs.head? = some '+' then expNat cs.tail
  else if cs.head? = some '-' then - expNat cs.tail
  else expNat cs

/-- The exponent contributed by an `e`/`E` suffix, `0` when absent. -/
def exponentVal (cs : List Char) : ℤ :=
  if cs.head? = some 'e' ∨ cs.head? = some 'E' then expTail cs.tail else 0

/-- ECMA-262 StrUnsignedDecimalLiteral other than `Infinity`:
`DecimalDigits [. DecimalDigits] [Exponent]` or `. DecimalDigits
[Exponent]`, read as the longest valid prefix; `none` when no digit is
found (JS: NaN). -/
def parseUnsigned (cs : List Char) : Option ℚ :=
  let intDs := cs.takeWhile Char.isDigit
  let cs1 := cs.dropWhile Char.isDigit
  let fracDs := if cs1.head? = some '.' then cs1.tail.takeWhile Char.isDigit else []
  let cs2 := if cs1.head? = some '.' then cs1.tail.dropWhile Char.isDigit else cs1
  if intDs.isEmpty && fracDs.isEmpty then none
  else some (((digitsVal intDs : ℚ) + (digitsVal fracDs : ℚ) / 10 ^ fracDs.length)
    * 10 ^ exponentVal cs2)

/-- The characters of the literal `Infinity`. -/
def infinityChars : List Char := ['I', 'n', 'f', 'i', 'n', 'i', 't', 'y']

/-- An unsigned StrDecimalLiteral: `Infinity` or an unsigned decimal. -/
def parseMag (cs : List Char) : JsNum :=
  if infinityChars.isPrefixOf cs then .posInf
  else match parseUnsigned cs with
    | none => .nan
    | some q => .finite q

/-- JS unary minus on a number. -/
def jsNeg : JsNum → JsNum
  | .nan => .nan
  | .posInf => .negInf
  | .negInf => .posInf
  | .finite q => .finite (-q)

/-- Optional sign before the unsigned literal. -/
def parseSigned (cs : List Char) : JsNum :=
  if cs.head? = some '-' then jsNeg (parseMag cs.tail)
  else if cs.head? = some '+' then parseMag cs.tail
  else parseMag cs

/-- `parseFloat`: skip leading whitespace, then read the longest
StrDecimalLiteral prefix; NaN when there is none. -/
def jsParseFloat (cs : List Char) : JsNum :=
  parseSigned (cs.dropWhile isWsChar)

/-- `parseCellValue` from `page.tsx`:
`const parsed = parseFloat(value); return Number.isFinite(parsed) ? parsed : 0`. -/
def parseCellValue (s : String) : ℚ :=
  match jsParseFloat s.data with
  | .finite q => q
  | _ => 0
-- ## Parser lemmas

theorem takeWhile_append_of_all (p : Char → Bool) (l1 l2 : List Char)
    (h1 : ∀ c ∈ l1, p c = true) (h2 : ∀ c, l2.head? = some c → p c = false) :
    (l1 ++ l2).takeWhile p = l1 := by
  induction l1 with
  | nil =>
    cases l2 with
    | nil => rfl
    | cons b bs => simp [List.takeWhile_cons, h2 b rfl]
  | cons a as ih =>
    simp only [List.cons_append, List.takeWhile_cons, h1 a (by simp), if_true]
    rw [ih (fun c hc => h1 c (by simp [hc]))]

theorem dropWhile_append_of_all (p : Char → Bool) (l1 l2 : List Char)
    (h1 : ∀ c ∈ l1, p c = true) (h2 : ∀ c, l2.head? = some c → p c = false) :
    (l1 ++ l2).dropWhile p = l2 := by
  induction l1 with
  | nil =>
    cases l2 with
    | nil => rfl
    | cons b bs => simp [List.dropWhile_cons, h2 b rfl]
  | cons a as ih =>
    simp only [List.cons_append, List.dropWhile_cons, h1 a (by simp), if_true]
    exact ih (fun c hc => h1 c (by simp [hc]))

theorem isDigit_ne (c d : Char) (h : c.isDigit = true) (hd : d.isDigit = false) : c ≠ d := by
  intro e
  rw [e, hd] at h
  exact Bool.false_ne_true h

theorem digit_not_ws (c : Char) (h : c.isDigit = true) : isWsChar c = false := by
  by_contra hw
  rw [Bool.not_eq_false] at hw
  simp [isWsChar, or_assoc] at hw
  rcases hw with rfl | rfl | rfl | rfl | rfl | rfl | rfl | rfl <;> exact absurd h (by decide)

theorem jsParseFloat_digits_lead (intDs fracDs rest : List Char)
    (hne : intDs ≠ [])
    (hint : ∀ c ∈ intDs, c.isDigit = true)
    (hfrac : ∀ c ∈ fracDs, c.isDigit = true)
    (hrest : ∀ c, rest.head? = some c → c.isDigit = false ∧ c ≠ 'e' ∧ c ≠ 'E') :
    jsParseFloat (intDs ++ '.' :: (fracDs ++ rest))
      = JsNum.finite ((digitsVal intDs : ℚ) + (digitsVal fracDs : ℚ) / 10 ^ fracDs.length) := by
  obtain ⟨d, ds, rfl⟩ : ∃ d ds, intDs = d :: ds := by
    cases intDs with
    | nil => exact absurd rfl hne
    | cons d ds => exact ⟨d, ds, rfl⟩
  have hd : d.isDigit = true := hint d (by simp)
  have hrestD : ∀ c, rest.head? = some c → c.isDigit = false :=
    fun c hc => (hrest c hc).1
  have hws : ((d :: ds) ++ '.' :: (fracDs ++ rest)).dropWhile isWsChar
      = (d :: ds) ++ '.' :: (fracDs ++ rest) := by
    simp [List.dropWhile_cons, digit_not_ws d hd]
  rw [jsParseFloat, hws]
  have hdm : d ≠ '-' := isDigit_ne d '-' hd (by decide)
  have hdp : d ≠ '+' := isDigit_ne d '+' hd (by decide)
  have hdI : d ≠ 'I' := isDigit_ne d 'I' hd (by decide)
  rw [parseSigned]
  rw [if_neg (by simp [hdm]), if_neg (by simp [hdp])]
  rw [parseMag, if_neg (by simp [infinityChars, List.isPrefixOf, Ne.symm hdI])]
  have hint' : ∀ c ∈ d :: ds, Char.isDigit c = true := hint
  have htake : ((d :: ds) ++ '.' :: (fracDs ++ rest)).takeWhile Char.isDigit = d :: ds :=
    takeWhile_append_of_all _ _ _ hint' (fun c hc => by
      simp at hc
      rw [← hc]
      decide)
  have hdrop : ((d :: ds) ++ '.' :: (fracDs ++ rest)).dropWhile Char.isDigit
      = '.' :: (fracDs ++ rest) :=
    dropWhile_append_of_all _ _ _ hint' (fun c hc => by
      simp at hc
      rw [← hc]
      decide)
  have hftake : (fracDs ++ rest).takeWhile Char.isDigit = fracDs :=
    takeWhile_append_of_all _ _ _ hfrac hrestD
  have hfdrop : (fracDs ++ rest).dropWhile Char.isDigit = rest :=
    dropWhile_append_of_all _ _ _ hfrac hrestD
  have hexp : exponentVal rest = 0 := by
    rw [exponentVal, if_neg]
    rintro (h | h) <;>
      (cases rest with
       | nil => simp at h
       | cons c cs =>
          simp at h
          subst h
          rcases hrest _ rfl with ⟨h1, h2, h3⟩
          simp_all)
  rw [parseUnsigned]
  simp only [htake, hdrop, List.head?_cons, List.tail_cons, hftake, hfdrop, hexp,
    List.isEmpty_cons, Bool.false_and, Bool.false_eq_true, reduceIte, zpow_zero, mul_one]


theorem jsParseFloat_leading_ws (ws cs : List Char) (h : ∀ c ∈ ws, isWsChar c = true) :
    jsParseFloat (ws ++ cs) = jsParseFloat cs := by
  rw [jsParseFloat, jsParseFloat]
  congr 1
  induction ws with
  | nil => rfl
  | cons a as ih =>
    simp only [List.cons_append, List.dropWhile_cons, h a (by simp), if_true]
    exact ih (fun c hc => h c (by simp [hc]))

-- ## Claim C4: the cell parser is total with default 0

/-- **C4.** `parseCellValue` is total (it is a Lean function, so it cannot
fail or throw); every string whose `parseFloat` value is not finite yields
`0`; and the six specified examples hold: `"abc"`, `""`, `"NaN"` and
`"Infinity"` give `0`, `"3.14"` gives `3.14` and `"-2"` gives `-2`
(exactly, in the rational idealisation of JS doubles). -/
theorem parseCellValue_spec :
    (∀ s : String, isFiniteNum (jsParseFloat s.data) = false → parseCellValue s = 0)
    ∧ parseCellValue "abc" = 0
    ∧ parseCellValue "" = 0
    ∧ parseCellValue "3.14" = 3.14
    ∧ parseCellValue "-2" = -2
    ∧ parseCellValue "NaN" = 0
    ∧ parseCellValue "Infinity" = 0 := by
  refine ⟨?_, by decide, by decide, ?_, ?_, by decide, by decide⟩
  · intro s h
    cases hj : jsParseFloat s.data with
    | finite q => simp [isFiniteNum, hj] at h
    | nan => simp [parseCellValue, hj]
    | posInf => simp [parseCellValue, hj]
    | negInf => simp [parseCellValue, hj]
  · simp +decide [parseCellValue, jsParseFloat, parseSigned, parseMag, parseUnsigned,
      exponentVal, expTail, expNat, digitsVal, isWsChar, infinityChars]
    try norm_num
  · simp +decide [parseCellValue, jsParseFloat, parseSigned, parseMag, parseUnsigned,
      exponentVal, expTail, expNat, digitsVal, isWsChar, infinityChars, jsNeg]
    try norm_num

/-- Witness for C4: `"Infinity"` does not parse to a finite number and
the parser returns `0` on it. -/
theorem parseCellValue_spec_witness :
    isFiniteNum (jsParseFloat ("Infinity").data) = false ∧ parseCellValue "Infinity" = 0 :=
  ⟨by decide, parseCellValue_spec.1 "Infinity" (by decide)⟩

-- ## Claim C10: parseFloat prefix semantics

/-- **C10.** The parser follows `parseFloat` prefix semantics: a string of
decimal digits, a dot, more digits and then trailing characters that cannot
continue the literal (first trailing character neither a digit nor `e`/`E`)
parses to the value of the numeric prefix rather than `0`; leading
whitespace before the number is ignored; in particular
`parseCellValue "3.14abc" = 3.14`. -/
theorem parseCellValue_prefix_spec :
    (∀ (intDs fracDs rest : List Char),
        intDs ≠ [] → (∀ c ∈ intDs, c.isDigit = true) → (∀ c ∈ fracDs, c.isDigit = true) →
        (∀ c, rest.head? = some c → c.isDigit = false ∧ c ≠ 'e' ∧ c ≠ 'E') →
        parseCellValue (String.mk (intDs ++ '.' :: (fracDs ++ rest)))
          = (digitsVal intDs : ℚ) + (digitsVal fracDs : ℚ) / 10 ^ fracDs.length)
    ∧ (∀ (ws cs : List Char), (∀ c ∈ ws, isWsChar c = true) →
        jsParseFloat (ws ++ cs) = jsParseFloat cs)
    ∧ parseCellValue "3.14abc" = 3.14
    ∧ parseCellValue " 3.14" = 3.14 := by
  refine ⟨?_, jsParseFloat_leading_ws, ?_, ?_⟩
  · intro intDs fracDs rest hne hint hfrac hrest
    have h := jsParseFloat_digits_lead intDs fracDs rest hne hint hfrac hrest
    simp [parseCellValue, h]
  · simp +decide [parseCellValue, jsParseFloat, parseSigned, parseMag, parseUnsigned,
      exponentVal, expTail, expNat, digitsVal, isWsChar, infinityChars]
    try norm_num
  · simp +decide [parseCellValue, jsParseFloat, parseSigned, parseMag, parseUnsigned,
      exponentVal, expTail, expNat, digitsVal, isWsChar, infinityChars]
    try norm_num

/-- Witness for C10 at the concrete input `"3.14abc"`. -/
theorem parseCellValue_prefix_spec_witness :
    parseCellValue (String.mk (['3'] ++ '.' :: (['1', '4'] ++ ['a', 'b', 'c'])))
      = (digitsVal ['3'] : ℚ) + (digitsVal ['1', '4'] : ℚ) / 10 ^ (['1', '4'] : List Char).length :=
  parseCellValue_prefix_spec.1 ['3'] ['1', '4'] ['a', 'b', 'c'] (by decide) (by decide)
    (by decide)
    (fun c hc => by
      simp at hc
      subst hc
      exact ⟨by decide, by decide, by decide⟩)

-- ## The number formatter

/-- The value denoted by `parseFloat(value.toFixed(4))`, as the scaled
integer `value·10⁴`. ECMA-262 `toFixed`: the sign is extracted first and
the magnitude is rounded to the integer `n` minimising `|n/10⁴ - |x||`,
the larger `n` on ties; `parseFloat` then reads the decimal string
`toFixed` printed, recovering exactly `±n/10⁴` (the string round-trip is
exact, so it is elided at the value level; `ℚ` has no negative zero, the
only value the round-trip cannot represent). -/
def toFixed4Int (x : ℚ) : ℤ :=
  if x < 0 then -⌊-x * 10 ^ 4 + 1 / 2⌋ else ⌊x * 10 ^ 4 + 1 / 2⌋

/-- Drops trailing `'0'` digits (Intl with `minimumFractionDigits: 0`
omits them). -/
def trimTrailingZeros (ds : List Char) : List Char :=
  (ds.reverse.dropWhile (· == '0')).reverse

/-- Thousands grouping on a reversed digit list: a `','` before each new
group of three, counting from the least significant digit. -/
def groupRevGo : Nat → List Char → List Char
  | _, [] => []
  | 0, c :: rest => ',' :: c :: groupRevGo 2 rest
  | k + 1, c :: rest => c :: groupRevGo k rest

/-- `en-US` thousands grouping of a reversed integer-digit list. -/
def groupRev (ds : List Char) : List Char := groupRevGo 3 ds

/-- Pads a fractional-digit list to 4 digits with leading zeros. -/
def pad4 (ds : List Char) : List Char := List.replicate (4 - ds.length) '0' ++ ds

/-- `numberFormatter.format` from `page.tsx` —
`Intl.NumberFormat("en-US", { maximumFractionDigits: 4, minimumFractionDigits: 0 })` —
applied to the value `n/10⁴` (every value reaching it has at most 4
fractional digits, being `parseFloat` of a `toFixed(4)` string): sign,
comma-grouped integer part, and the fractional digits with trailing zeros
(and an all-zero fraction's decimal point) omitted. -/
def numberFormatterFormat (n : ℤ) : String :=
  let m := n.natAbs
  let ipChars := Nat.toDigits 10 (m / 10 ^ 4)
  let frChars := trimTrailingZeros (pad4 (Nat.toDigits 10 (m % 10 ^ 4)))
  let grouped := (groupRev ipChars.reverse).reverse
  let core := grouped ++ (if frChars.isEmpty then [] else '.' :: frChars)
  String.mk (if n < 0 then '-' :: core else core)

/-- `formatNumber` from `page.tsx`:
`numberFormatter.format(parseFloat(value.toFixed(4)))`. -/
def formatNumber (x : ℚ) : String := numberFormatterFormat (toFixed4Int x)

/-- Modelled from the spec: "round-half-away-from-zero at the 4th decimal
place", stated directly — floor of `x·10⁴ + 1/2` for non-negative `x`,
ceiling of `x·10⁴ - 1/2` for negative `x`. -/
def roundHalfAwayFromZero4 (x : ℚ) : ℤ :=
  if 0 ≤ x then ⌊x * 10 ^ 4 + 1 / 2⌋ else ⌈x * 10 ^ 4 - 1 / 2⌉

theorem toFixed4Int_eq_round (x : ℚ) : toFixed4Int x = roundHalfAwayFromZero4 x := by
  rw [toFixed4Int, roundHalfAwayFromZero4]
  rcases lt_trichotomy x 0 with h | h | h
  · rw [if_pos h, if_neg (not_le.mpr h),
      show -x * 10 ^ 4 + 1 / 2 = -(x * 10 ^ 4 - 1 / 2) from by ring,
      Int.floor_neg, neg_neg]
  · subst h
    norm_num
  · rw [if_neg (not_lt.mpr h.le), if_pos h.le]

-- ## Claim C8: the number formatter

/-- **C8.** The formatter rounds the value to 4 decimals before locale
formatting, and the value it renders is exactly the
round-half-away-from-zero rounding of the input at the 4th decimal place
(so the display shows at most 4 fractional digits); it is a pure function
of its argument, so it never alters the numeric values used elsewhere; and
`format(1.23456) = "1.2346"`, `format(0) = "0"`. -/
theorem formatNumber_spec :
    (∀ x : ℚ, formatNumber x = numberFormatterFormat (roundHalfAwayFromZero4 x))
    ∧ formatNumber 1.23456 = "1.2346"
    ∧ formatNumber 0 = "0" := by
  refine ⟨?_, ?_, ?_⟩
  · intro x
    rw [formatNumber, toFixed4Int_eq_round]
  · rw [formatNumber, show toFixed4Int 1.23456 = 12346 from by norm_num [toFixed4Int]]
    decide
  · rw [formatNumber, show toFixed4Int 0 = 0 from by norm_num [toFixed4Int]]
    decide
